import Mathlib

/-!
# Seismic detection frontend: a shallow embedding

This development embeds the core of the seismic-detection dashboard
(`frontend/src/App.jsx` together with the TimescaleDB schema shipped with it)
into Lean and proves the behavioural properties stated in the design document.

Numeric values carried by messages (amplitudes, confidences, pixel
coordinates) are embedded as rationals `ℚ`; JavaScript's `-Infinity`
(the value of `Math.max()` on an empty argument list) is represented
explicitly by the type `JsNum`.
-/

/-! ## Stream buffers

`App.jsx` keeps two bounded buffers in component state:

* waveform channel: `setWaveformData(prev => [...prev.slice(-100), data])`
* detection channel: `setDetections(prev => [data, ...prev.slice(0, 49)])`
-/

/-- JavaScript `arr.slice(-n)`: the last `n` elements (all of them when the
array is shorter than `n`). -/
def sliceLast (n : ℕ) (l : List α) : List α :=
  l.drop (l.length - n)

/-- One waveform push: `[...prev.slice(-100), data]` (App.jsx line 28). -/
def pushWaveform (buf : List α) (d : α) : List α :=
  sliceLast 100 buf ++ [d]

/-- One detection push: `[data, ...prev.slice(0, 49)]` (App.jsx line 46). -/
def pushDetection (buf : List α) (d : α) : List α :=
  d :: buf.take 49

/-- The sample the dashboard hands to `WaveformChart`:
`waveformData.length > 0 ? waveformData[waveformData.length - 1] : none`
(App.jsx lines 79–84). -/
def renderedSample (buf : List α) : Option α :=
  if buf.length > 0 then buf[buf.length - 1]? else none

/-! ## Channels and message delivery

The `onmessage` handlers run `JSON.parse` on the raw frame with no
`try`/`catch`.  A raw frame is embedded as `Option α`: `some d` when the
payload is valid JSON parsing to `d`, `none` when it is not, in which case
`JSON.parse` throws — modelled by `Except.error`.  The browser's event
dispatch reports an exception thrown inside an event listener to the global
scope and continues; it neither closes the socket nor touches any other
state.  `deliverWaveform` / `deliverDetection` embed one dispatch step under
those host semantics. -/

structure Channel (α : Type u) where
  isOpen : Bool
  buf : List α
  deriving Repr, DecidableEq

/-- The waveform `onmessage` handler body (App.jsx lines 26–29):
`JSON.parse` then the functional state update; a malformed payload throws. -/
def onMessageWaveform (raw : Option α) (buf : List α) : Except Unit (List α) :=
  match raw with
  | none => Except.error ()
  | some d => Except.ok (pushWaveform buf d)

/-- The detection `onmessage` handler body (App.jsx lines 44–47). -/
def onMessageDetection (raw : Option α) (buf : List α) : Except Unit (List α) :=
  match raw with
  | none => Except.error ()
  | some d => Except.ok (pushDetection buf d)

/-- One delivery step on the waveform channel: messages are only delivered
while the socket is open; an exception escaping the handler is reported by
the host and leaves both the socket and the buffer as they were. -/
def deliverWaveform (ch : Channel α) (raw : Option α) : Channel α :=
  if ch.isOpen then
    match onMessageWaveform raw ch.buf with
    | Except.ok b => { ch with buf := b }
    | Except.error _ => ch
  else ch

/-- One delivery step on the detection channel. -/
def deliverDetection (ch : Channel α) (raw : Option α) : Channel α :=
  if ch.isOpen then
    match onMessageDetection raw ch.buf with
    | Except.ok b => { ch with buf := b }
    | Except.error _ => ch
  else ch

/-! ## Connection status tracking

`connectionStatus` is `{ waveforms, detections }`, both initially
`'disconnected'`; each `onopen`/`onclose` handler spreads the previous
object and overwrites its own key (App.jsx lines 7–10, 21–23, 31–33,
39–41, 49–51). -/

inductive ConnState where
  | connected
  | disconnected
  deriving Repr, DecidableEq

inductive StreamId where
  | waveforms
  | detections
  deriving Repr, DecidableEq

inductive LifeEvent where
  | opened
  | closed
  deriving Repr, DecidableEq

/-- The status written by a lifecycle handler: `onopen` writes
`'connected'`, `onclose` writes `'disconnected'`. -/
def stateOf : LifeEvent → ConnState
  | LifeEvent.opened => ConnState.connected
  | LifeEvent.closed => ConnState.disconnected

structure ConnStatus where
  waveforms : ConnState
  detections : ConnState
  deriving Repr, DecidableEq

/-- Initial state: both streams `'disconnected'` (App.jsx lines 7–10). -/
def initStatus : ConnStatus :=
  { waveforms := ConnState.disconnected, detections := ConnState.disconnected }

/-- One lifecycle handler firing: `setConnectionStatus(prev => ({ ...prev,
<stream>: <state> }))` — the spread keeps the other key. -/
def applyEvent (s : ConnStatus) : StreamId × LifeEvent → ConnStatus
  | (StreamId.waveforms, e) => { s with waveforms := stateOf e }
  | (StreamId.detections, e) => { s with detections := stateOf e }

/-- Read one stream's entry of the status mapping. -/
def getStream (s : ConnStatus) : StreamId → ConnState
  | StreamId.waveforms => s.waveforms
  | StreamId.detections => s.detections

/-! ## Waveform renderer

`WaveformChart` (App.jsx lines 96–156).  The canvas is 800 × 300.  The
chart truncates to the first 500 samples, computes
`maxAmplitude = Math.max(...waveformData.map(Math.abs))` — which is
`-Infinity` for an empty array — and the scale
`(height / 2) * 0.8 / (maxAmplitude || 1)`, then emits `moveTo` for index 0
and `lineTo` for every later index, followed by a centre reference line. -/

/-- A JavaScript number as produced by `Math.max(...xs.map(Math.abs))`:
either `-Infinity` (empty argument list) or a finite rational. -/
inductive JsNum where
  | negInf
  | fin (q : ℚ)
  deriving Repr, DecidableEq

/-- Binary `Math.max` folding step over finite arguments. -/
def jsMax : JsNum → ℚ → JsNum
  | JsNum.negInf, q => JsNum.fin q
  | JsNum.fin a, q => JsNum.fin (max a q)

/-- `Math.max(...l.map(Math.abs))`: fold starting from `-Infinity`
(App.jsx line 114). -/
def maxAmplitude (l : List ℚ) : JsNum :=
  (l.map abs).foldl jsMax JsNum.negInf

/-- JavaScript truthiness of a number: `0` is falsy, every other number —
`-Infinity` included — is truthy. -/
def truthy : JsNum → Bool
  | JsNum.negInf => true
  | JsNum.fin q => q != 0

/-- The divisor of the scale computation, `maxAmplitude || 1`
(App.jsx line 115). -/
def divisor (l : List ℚ) : JsNum :=
  if truthy (maxAmplitude l) then maxAmplitude l else JsNum.fin 1

/-- Canvas path commands issued while drawing. -/
inductive Cmd where
  | moveTo (x y : ℚ)
  | lineTo (x y : ℚ)
  deriving Repr, DecidableEq

/-- The waveform path drawn by `WaveformChart` (App.jsx lines 112–130):
truncate to 500 samples, `step = width / count`,
`scale = (height / 2) * 0.8 / (maxAmplitude || 1)`, then
`moveTo`/`lineTo` at `x = index * step`, `y = height / 2 - value * scale`.
The two `let`-bound junk values for an empty sample list (`step = 800 / 0`,
finite projection of a `-Infinity` divisor) are never read, because the
`forEach` over an empty list emits no command. -/
def wavePath (data : List ℚ) : List Cmd :=
  let t := data.take 500
  let step : ℚ := 800 / (t.length : ℚ)
  let d : ℚ := match divisor t with
    | JsNum.fin q => q
    | JsNum.negInf => 0
  let scale : ℚ := (300 / 2) * (4 / 5) / d
  t.enum.map (fun p =>
    if p.1 = 0 then Cmd.moveTo ((p.1 : ℚ) * step) (300 / 2 - p.2 * scale)
    else Cmd.lineTo ((p.1 : ℚ) * step) (300 / 2 - p.2 * scale))

/-- The centre reference line (App.jsx lines 137–139): horizontal at
`height / 2`, spanning the full width, independent of the data. -/
def centerLine : List Cmd :=
  [Cmd.moveTo 0 (300 / 2), Cmd.lineTo 800 (300 / 2)]

/-- The (x, y) pixel points of a command list. -/
def pathPoints (cmds : List Cmd) : List (ℚ × ℚ) :=
  cmds.map (fun c => match c with
    | Cmd.moveTo x y => (x, y)
    | Cmd.lineTo x y => (x, y))

/-- Spec-side maximum amplitude `max(|v|)`, with value `0` on the empty
list (used only through the spec-side divisor below). -/
def maxAbsQ (l : List ℚ) : ℚ :=
  (l.map abs).foldl max 0

/-- Spec-side rendering, following §4.3 of the design document word for
word: truncate to the first 500 samples; `maxAmplitude = max(|v|)`; divisor
1 when the maximum is 0 or the sample set is empty; `scale =
(H/2) * 0.8 / divisor`; `step = W / count`; point `i` at `(i * step,
H/2 - v * scale)`. -/
def specPoints (data : List ℚ) : List (ℚ × ℚ) :=
  let t := data.take 500
  let count := t.length
  let m := maxAbsQ t
  let d : ℚ := if m = 0 then 1 else m
  let scale : ℚ := (300 / 2) * (4 / 5) / d
  (List.range count).map (fun (i : ℕ) =>
    ((i : ℚ) * (800 / (count : ℚ)), 300 / 2 - t.getD i 0 * scale))

/-- Spec-side path: the points of `specPoints` connected as a polyline in
index order (`moveTo` the first, `lineTo` each subsequent one). -/
def specCmds (data : List ℚ) : List Cmd :=
  match specPoints data with
  | [] => []
  | p :: ps => Cmd.moveTo p.1 p.2 :: ps.map (fun q => Cmd.lineTo q.1 q.2)

/-! ## Detection events and the detection card

`DetectionCard` (App.jsx lines 172–219).  A `DetectionEvent`'s `models` is
an object mapping model names to results; it is embedded as an association
list in key-insertion order, since `Object.keys` iterates string keys in
insertion order.  A missing `comparison` object is `none`; `comparison ||
\x7b\x7d` then yields an object whose `agreement` and `confidence_diff` reads
are `undefined` (falsy / absent). -/

structure Pick where
  phase : String
  probability : ℚ
  deriving Repr, DecidableEq

structure ModelResult where
  detected : Bool
  confidence : ℚ
  picks : List Pick
  deriving Repr, DecidableEq

structure Comparison where
  agreement : Bool
  confidence_diff : Option ℚ
  deriving Repr, DecidableEq

structure DetectionEvent where
  event_id : String
  timestamp : Int
  models : List (String × ModelResult)
  comparison : Option Comparison
  deriving Repr, DecidableEq

/-- The decimal digit character for `n < 10`. -/
def digitChar : ℕ → Char
  | 0 => '0'
  | 1 => '1'
  | 2 => '2'
  | 3 => '3'
  | 4 => '4'
  | 5 => '5'
  | 6 => '6'
  | 7 => '7'
  | 8 => '8'
  | _ => '9'

/-- Decimal digits of `n`, most significant first, with explicit fuel
(structural recursion; `fuel = n + 1` always suffices). -/
def natDigits : ℕ → ℕ → List Char
  | 0, _ => []
  | fuel + 1, n =>
    if n < 10 then [digitChar n]
    else natDigits fuel (n / 10) ++ [digitChar (n % 10)]

/-- Decimal rendering of a natural number. -/
def natToString (n : ℕ) : String :=
  ⟨natDigits (n + 1) n⟩

/-- `Number.prototype.toFixed(1)` on the non-negative values the card
formats (confidences and deltas scaled to percentages): round to the
nearest tenth and print one decimal digit. -/
def toFixed1 (q : ℚ) : String :=
  let n : ℕ := (⌊q * 10 + 1 / 2⌋ : ℤ).toNat
  natToString (n / 10) ++ "." ++ natToString (n % 10)

/-- `Number.prototype.toFixed(0)` on non-negative values: round to the
nearest integer. -/
def toFixed0 (q : ℚ) : String :=
  natToString (⌊q + 1 / 2⌋ : ℤ).toNat

/-- The truthiness test `comparison.agreement ? … : …` after
`const comparison = detection.comparison || \x7b\x7d` (App.jsx lines 174,
178, 182–184): an absent comparison object reads as `undefined`, which is
falsy. -/
def classifyAgreement (d : DetectionEvent) : Bool :=
  match d.comparison with
  | some c => c.agreement
  | none => false

/-- One rendered model block (App.jsx lines 188–210). -/
structure ModelBlock where
  name : String
  detected : Bool
  confidenceText : String
  pickBadges : List String
  deriving Repr, DecidableEq

/-- The rendered card. -/
structure Card where
  classification : Bool
  badge : String
  modelBlocks : List ModelBlock
  confidenceDiffLine : Option String
  deriving Repr, DecidableEq

/-- `DetectionCard` rendering (App.jsx lines 172–219): the card class and
badge come from the truthiness of `comparison.agreement`; each model block
shows `(confidence * 100).toFixed(1)%` and one badge
`phase: (probability * 100).toFixed(0)%` per pick; the `Confidence Δ` line
renders only under `comparison.confidence_diff !== undefined`. -/
def renderCard (d : DetectionEvent) : Card :=
  { classification := classifyAgreement d
    badge := if classifyAgreement d then "✓ Agreement" else "✗ Disagreement"
    modelBlocks := d.models.map (fun p =>
      { name := p.1
        detected := p.2.detected
        confidenceText := toFixed1 (p.2.confidence * 100) ++ "%"
        pickBadges := p.2.picks.map (fun k =>
          k.phase ++ ": " ++ toFixed0 (k.probability * 100) ++ "%") })
    confidenceDiffLine := d.comparison.bind (fun c =>
      c.confidence_diff.map (fun q => "Confidence Δ: " ++ toFixed1 (q * 100) ++ "%")) }

/-! ## Time-series store: the hourly continuous aggregate

`detection_stats_hourly` (init SQL, lines 254–265): records grouped by
`time_bucket('1 hour', created_at)` and `model_name`, with `COUNT(*)`,
`SUM(CASE WHEN detected THEN 1 ELSE 0 END)`, `AVG(confidence)` and
`AVG(processing_time_ms)`.  `created_at` is embedded as seconds since the
epoch. -/

structure DetectionRecord where
  event_id : String
  model_name : String
  detected : Bool
  confidence : ℚ
  processing_time_ms : ℚ
  created_at : ℤ
  deriving Repr, DecidableEq

/-- `time_bucket('1 hour', t)`: the start of the hour containing `t`
(floor division, as `time_bucket` aligns buckets downwards). -/
def hourBucket (t : ℤ) : ℤ :=
  3600 * Int.fdiv t 3600

/-- The rows of one GROUP BY group: same hour bucket, same model name. -/
def groupRows (rows : List DetectionRecord) (b : ℤ) (m : String) :
    List DetectionRecord :=
  rows.filter (fun r => hourBucket r.created_at == b && r.model_name == m)

structure HourlyStats where
  total_detections : ℕ
  positive_detections : ℕ
  avg_confidence : ℚ
  avg_processing_time : ℚ
  deriving Repr, DecidableEq

/-- The `detection_stats_hourly` row for bucket `b` and model `m`, `none`
when the group is empty (GROUP BY emits no row for an empty group). -/
def statsHourly (rows : List DetectionRecord) (b : ℤ) (m : String) :
    Option HourlyStats :=
  let g := groupRows rows b m
  if g.length = 0 then none
  else some
    { total_detections := g.length
      positive_detections := (g.map (fun r => if r.detected then 1 else 0)).sum
      avg_confidence := (g.map (fun r => r.confidence)).sum / (g.length : ℚ)
      avg_processing_time :=
        (g.map (fun r => r.processing_time_ms)).sum / (g.length : ℚ) }

/-! ## Buffer lemmas -/

theorem pushWaveform_length (buf : List α) (d : α) :
    (pushWaveform buf d).length = min buf.length 100 + 1 := by
  simp [pushWaveform, sliceLast]
  omega

theorem pushWaveform_getLast? (buf : List α) (d : α) :
    (pushWaveform buf d).getLast? = some d := by
  simp [pushWaveform, List.getLast?_concat]

theorem foldl_pushWaveform_length (msgs : List α) (buf : List α) :
    (List.foldl pushWaveform buf msgs).length ≤ max buf.length 101 := by
  induction msgs generalizing buf with
  | nil => simp
  | cons m ms ih =>
    have h := ih (pushWaveform buf m)
    have hlen := pushWaveform_length buf m
    simp only [List.foldl_cons]
    omega

theorem foldl_pushWaveform_getLast? (msgs : List α) (buf : List α)
    (h : msgs ≠ []) :
    (List.foldl pushWaveform buf msgs).getLast? = msgs.getLast? := by
  induction msgs generalizing buf with
  | nil => exact absurd rfl h
  | cons m ms ih =>
    cases ms with
    | nil => simp [pushWaveform_getLast?]
    | cons m' ms' =>
      rw [List.foldl_cons, ih (pushWaveform buf m) (by simp)]
      simp [List.getLast?]

theorem renderedSample_eq_getLast? (l : List α) :
    renderedSample l = l.getLast? := by
  cases l with
  | nil => rfl
  | cons x xs =>
    simp [renderedSample, List.getLast?_eq_getElem?]

theorem take_append_take (a b : List α) (n : ℕ) :
    (a ++ b.take n).take n = (a ++ b).take n := by
  rw [List.take_append_eq_append_take, List.take_append_eq_append_take,
    List.take_take, Nat.min_eq_left (Nat.sub_le n a.length)]

theorem foldl_pushDetection (msgs : List α) (x : List α) :
    List.foldl pushDetection (x.take 50) msgs = (msgs.reverse ++ x).take 50 := by
  induction msgs generalizing x with
  | nil => simp
  | cons m ms ih =>
    have hpush : pushDetection (x.take 50) m = (m :: x).take 50 := by
      simp [pushDetection, List.take_take]
    rw [List.foldl_cons, hpush, ih (m :: x)]
    rw [List.reverse_cons, List.append_assoc]
    rfl

/-! ## Status-tracker lemmas -/

theorem applyEvent_get_self (s : ConnStatus) (sid : StreamId) (e : LifeEvent) :
    getStream (applyEvent s (sid, e)) sid = stateOf e := by
  cases sid <;> rfl

theorem applyEvent_get_other (s : ConnStatus) (sid sid' : StreamId)
    (e : LifeEvent) (h : sid' ≠ sid) :
    getStream (applyEvent s (sid, e)) sid' = getStream s sid' := by
  cases sid <;> cases sid' <;> first | rfl | exact absurd rfl h

theorem foldl_applyEvent_last (evs : List (StreamId × LifeEvent))
    (s : ConnStatus) (sid : StreamId) :
    getStream (List.foldl applyEvent s evs) sid =
      ((evs.filter (fun e => e.1 == sid)).getLast?).elim
        (getStream s sid) (fun e => stateOf e.2) := by
  induction evs generalizing s with
  | nil => rfl
  | cons e rest ih =>
    rw [List.foldl_cons, ih (applyEvent s e)]
    by_cases hm : e.1 = sid
    · subst hm
      obtain ⟨sid, le⟩ := e
      rw [show ((⟨sid, le⟩ : StreamId × LifeEvent) :: rest).filter
            (fun e => e.1 == sid) =
          ⟨sid, le⟩ :: rest.filter (fun e => e.1 == sid) by simp]
      cases hrest : rest.filter (fun e => e.1 == sid) with
      | nil => simp [applyEvent_get_self]
      | cons y ys => simp [List.getLast?]
    · obtain ⟨sid', le⟩ := e
      have hne : sid ≠ sid' := fun hh => hm (by simp [hh])
      rw [applyEvent_get_other s sid' sid le hne]
      rw [show ((⟨sid', le⟩ : StreamId × LifeEvent) :: rest).filter
            (fun e => e.1 == sid) = rest.filter (fun e => e.1 == sid) by
        simp [hm]]

/-! ## Claim theorems -/

/-- C1: a raw message whose payload is not valid JSON leaves the channel
exactly as it was — still open, buffer untouched — and the channel goes on
processing subsequent valid messages as if the bad frame had never
arrived, on both the waveform and the detection channel. -/
theorem parse_failure_contained {α : Type u} (ch chd : Channel α) (d d' : α) :
    deliverWaveform ch none = ch ∧
    deliverDetection chd none = chd ∧
    deliverWaveform (deliverWaveform ch none) (some d) =
      deliverWaveform ch (some d) ∧
    deliverDetection (deliverDetection chd none) (some d') =
      deliverDetection chd (some d') := by
  have hw : deliverWaveform ch none = ch := by
    cases ch with
    | mk o b => cases o <;> simp [deliverWaveform, onMessageWaveform]
  have hd : deliverDetection chd none = chd := by
    cases chd with
    | mk o b => cases o <;> simp [deliverDetection, onMessageDetection]
  exact ⟨hw, hd, by rw [hw], by rw [hd]⟩

/-- C2: over any sequence of waveform pushes starting from the empty
buffer, the buffer never holds more than 101 entries (the last 100 kept by
`slice(-100)` plus the incoming one), and the sample handed to
`WaveformChart` is always the most recently pushed one. -/
theorem waveform_buffer_invariant {α : Type u} (msgs : List α) :
    (List.foldl pushWaveform ([] : List α) msgs).length ≤ 101 ∧
    renderedSample (List.foldl pushWaveform ([] : List α) msgs) =
      msgs.getLast? := by
  constructor
  · have h := foldl_pushWaveform_length msgs ([] : List α)
    simpa using h
  · rw [renderedSample_eq_getLast?]
    cases msgs with
    | nil => rfl
    | cons m ms => exact foldl_pushWaveform_getLast? (m :: ms) [] (by simp)

/-- C3: over any sequence of detection pushes starting from the empty
buffer, the buffer is exactly the reversed arrival sequence truncated to
50 entries — so its length never exceeds 50, retained entries sit in
newest-first arrival order, and the newest entry is at index 0. -/
theorem detection_buffer_invariant {α : Type u} (msgs : List α) :
    List.foldl pushDetection ([] : List α) msgs = msgs.reverse.take 50 ∧
    (List.foldl pushDetection ([] : List α) msgs).length ≤ 50 ∧
    (msgs ≠ [] →
      (List.foldl pushDetection ([] : List α) msgs).head? = msgs.getLast?) := by
  have h := foldl_pushDetection msgs ([] : List α)
  simp only [List.take_nil, List.append_nil] at h
  refine ⟨h, ?_, ?_⟩
  · rw [h]
    exact List.length_take_le 50 msgs.reverse
  · intro hne
    rw [h, ← List.head?_reverse]
    cases hr : msgs.reverse with
    | nil => exact absurd (List.reverse_eq_nil_iff.mp hr) hne
    | cons x xs => simp

/-- C3 witness: the invariant applied to the concrete push sequence
`[1, 2, 3]`. -/
theorem detection_buffer_invariant_witness :
    ([1, 2, 3] : List ℕ) ≠ [] ∧
    (List.foldl pushDetection ([] : List ℕ) [1, 2, 3]).head? =
      ([1, 2, 3] : List ℕ).getLast? :=
  ⟨by decide, (detection_buffer_invariant [1, 2, 3]).2.2 (by decide)⟩

/-- C10: a lifecycle event on one stream rewrites exactly that stream's
entry of the status mapping (`connected` on open, `disconnected` on
close), leaves the other stream's entry unchanged, and after any event
sequence each stream's status is the value of the last lifecycle event on
that stream (`disconnected` when there has been none). -/
theorem connection_status_update (s : ConnStatus) (sid sid' : StreamId)
    (e : LifeEvent) (evs : List (StreamId × LifeEvent)) (h : sid' ≠ sid) :
    getStream (applyEvent s (sid, e)) sid = stateOf e ∧
    getStream (applyEvent s (sid, e)) sid' = getStream s sid' ∧
    getStream (List.foldl applyEvent initStatus evs) sid =
      ((evs.filter (fun ev => ev.1 == sid)).getLast?).elim
        ConnState.disconnected (fun ev => stateOf ev.2) := by
  refine ⟨applyEvent_get_self s sid e,
    applyEvent_get_other s sid sid' e h, ?_⟩
  rw [foldl_applyEvent_last]
  have hinit : getStream initStatus sid = ConnState.disconnected := by
    cases sid <;> rfl
  rw [hinit]

/-- C10 witness: the update applied at a concrete state, a concrete event
on the waveform stream, and a concrete two-event history. -/
theorem connection_status_update_witness :
    StreamId.detections ≠ StreamId.waveforms ∧
    (getStream (applyEvent initStatus (StreamId.waveforms, LifeEvent.opened))
        StreamId.waveforms = stateOf LifeEvent.opened ∧
      getStream (applyEvent initStatus (StreamId.waveforms, LifeEvent.opened))
        StreamId.detections = getStream initStatus StreamId.detections ∧
      getStream (List.foldl applyEvent initStatus
          [(StreamId.waveforms, LifeEvent.opened),
            (StreamId.waveforms, LifeEvent.closed)]) StreamId.waveforms =
        ((([(StreamId.waveforms, LifeEvent.opened),
            (StreamId.waveforms, LifeEvent.closed)].filter
              (fun ev => ev.1 == StreamId.waveforms)).getLast?).elim
          ConnState.disconnected (fun ev => stateOf ev.2))) :=
  ⟨by decide,
    connection_status_update initStatus StreamId.waveforms StreamId.detections
      LifeEvent.opened
      [(StreamId.waveforms, LifeEvent.opened),
        (StreamId.waveforms, LifeEvent.closed)] (by decide)⟩

/-! ## Renderer lemmas -/

theorem foldl_jsMax_fin (l : List ℚ) (a : ℚ) :
    l.foldl jsMax (JsNum.fin a) = JsNum.fin (l.foldl max a) := by
  induction l generalizing a with
  | nil => rfl
  | cons x xs ih => simpa [jsMax] using ih (max a x)

theorem maxAmplitude_of_ne_nil (l : List ℚ) (h : l ≠ []) :
    maxAmplitude l = JsNum.fin (maxAbsQ l) := by
  cases l with
  | nil => exact absurd rfl h
  | cons x xs =>
    simp only [maxAmplitude, maxAbsQ, List.map_cons, List.foldl_cons, jsMax,
      foldl_jsMax_fin]
    rw [max_eq_right (abs_nonneg x)]

theorem init_le_foldl_max (l : List ℚ) (a : ℚ) : a ≤ l.foldl max a := by
  induction l generalizing a with
  | nil => exact le_refl a
  | cons x xs ih => exact le_trans (le_max_left a x) (ih (max a x))

theorem mem_le_foldl_max (l : List ℚ) (a : ℚ) (v : ℚ) (hv : v ∈ l) :
    v ≤ l.foldl max a := by
  induction l generalizing a with
  | nil => exact absurd hv (List.not_mem_nil v)
  | cons x xs ih =>
    rcases List.mem_cons.mp hv with h | h
    · subst h
      exact le_trans (le_max_right a v) (init_le_foldl_max xs (max a v))
    · exact ih (max a x) h

theorem maxAbsQ_nonneg (l : List ℚ) : 0 ≤ maxAbsQ l :=
  init_le_foldl_max (l.map abs) 0

theorem abs_le_maxAbsQ (l : List ℚ) (v : ℚ) (hv : v ∈ l) :
    |v| ≤ maxAbsQ l :=
  mem_le_foldl_max (l.map abs) 0 |v| (List.mem_map_of_mem abs hv)

theorem eq_zero_of_maxAbsQ_eq_zero (l : List ℚ) (h : maxAbsQ l = 0)
    (v : ℚ) (hv : v ∈ l) : v = 0 := by
  have h1 := abs_le_maxAbsQ l v hv
  rw [h] at h1
  exact abs_eq_zero.mp (le_antisymm h1 (abs_nonneg v))

theorem foldl_max_map_mul (l : List ℚ) (c a : ℚ) (hc : 0 ≤ c) :
    (l.map (fun v => c * v)).foldl max (c * a) = c * l.foldl max a := by
  induction l generalizing a with
  | nil => rfl
  | cons x xs ih =>
    simp only [List.map_cons, List.foldl_cons]
    rw [← mul_max_of_nonneg a x hc, ih (max a x)]

theorem maxAbsQ_map_mul (l : List ℚ) (c : ℚ) (hc : 0 ≤ c) :
    maxAbsQ (l.map (fun v => c * v)) = c * maxAbsQ l := by
  simp only [maxAbsQ, List.map_map]
  have h1 : (abs ∘ fun v => c * v) = (fun v => c * v) ∘ abs := by
    funext v
    simp [Function.comp, abs_mul, abs_of_nonneg hc]
  rw [h1, ← List.map_map]
  have h2 := foldl_max_map_mul (l.map abs) c 0 hc
  rw [mul_zero] at h2
  exact h2

theorem getD_map_mul (l : List ℚ) (c : ℚ) (i : ℕ) :
    (l.map (fun v => c * v)).getD i 0 = c * l.getD i 0 := by
  rw [List.getD_eq_getD_get?, List.getD_eq_getD_get?, List.get?_map]
  cases l.get? i with
  | none => simp
  | some v => simp

theorem enumFrom_map_eq {β : Type u} (F : ℕ → ℚ → β) (l : List ℚ) (n : ℕ) :
    (List.enumFrom n l).map (fun p => F p.1 p.2) =
      (List.range l.length).map (fun i => F (n + i) (l.getD i 0)) := by
  induction l generalizing n with
  | nil => rfl
  | cons x xs ih =>
    simp only [List.enumFrom, List.map_cons, List.length_cons,
      List.range_succ_eq_map, List.map_map]
    rw [ih (n + 1)]
    refine congrArg₂ _ (by simp) ?_
    apply List.map_congr_left
    intro i _
    have hn : n + 1 + i = n + (i + 1) := by omega
    simp [Function.comp, hn]

theorem enumFrom_map_ite {β : Type u} (A B : ℕ → ℚ → β) (l : List ℚ) (n : ℕ)
    (hn : n ≠ 0) :
    (List.enumFrom n l).map
        (fun p => if p.1 = 0 then A p.1 p.2 else B p.1 p.2) =
      (List.enumFrom n l).map (fun p => B p.1 p.2) := by
  induction l generalizing n with
  | nil => rfl
  | cons x xs ih =>
    simp only [List.enumFrom, List.map_cons]
    rw [if_neg hn]
    exact congrArg _ (ih (n + 1) (Nat.succ_ne_zero n))

theorem divisor_of_ne_nil (t : List ℚ) (h : t ≠ []) :
    divisor t = JsNum.fin (if maxAbsQ t = 0 then 1 else maxAbsQ t) := by
  rw [divisor, maxAmplitude_of_ne_nil t h]
  by_cases hm : maxAbsQ t = 0
  · simp [truthy, hm]
  · simp [truthy, hm]

theorem cons_path_eq (x : ℚ) (l : List ℚ) (st sc : ℚ) :
    (x :: l).enum.map (fun p =>
        if p.1 = 0 then Cmd.moveTo ((p.1 : ℚ) * st) (300 / 2 - p.2 * sc)
        else Cmd.lineTo ((p.1 : ℚ) * st) (300 / 2 - p.2 * sc)) =
      (match (List.range (x :: l).length).map (fun (i : ℕ) =>
          ((i : ℚ) * st, 300 / 2 - (x :: l).getD i 0 * sc)) with
        | [] => ([] : List Cmd)
        | p :: ps => Cmd.moveTo p.1 p.2 :: ps.map (fun q => Cmd.lineTo q.1 q.2)) := by
  have hrhs : (List.range (x :: l).length).map (fun (i : ℕ) =>
      ((i : ℚ) * st, 300 / 2 - (x :: l).getD i 0 * sc)) =
      (((0 : ℕ) : ℚ) * st, 300 / 2 - x * sc) ::
        (List.range l.length).map (fun (i : ℕ) =>
          (((i + 1 : ℕ) : ℚ) * st, 300 / 2 - l.getD i 0 * sc)) := by
    rw [show (x :: l).length = l.length + 1 from rfl, List.range_succ_eq_map]
    simp only [List.map_cons, List.map_map]
    congr 1
  rw [hrhs]
  have hlhs : (x :: l).enum = (0, x) :: List.enumFrom 1 l := rfl
  rw [hlhs]
  simp only [List.map_cons]
  rw [enumFrom_map_ite
    (fun i v => Cmd.moveTo ((i : ℚ) * st) (300 / 2 - v * sc))
    (fun i v => Cmd.lineTo ((i : ℚ) * st) (300 / 2 - v * sc)) l 1 one_ne_zero]
  rw [enumFrom_map_eq
    (fun i v => Cmd.lineTo ((i : ℚ) * st) (300 / 2 - v * sc)) l 1]
  congr 1
  rw [List.map_map]
  apply List.map_congr_left
  intro i _
  rw [Nat.add_comm 1 i]
  rfl

/-- The drawn waveform path agrees with the spec-side rendering. -/
theorem wavePath_eq_specCmds (data : List ℚ) : wavePath data = specCmds data := by
  cases data with
  | nil => rfl
  | cons x xs =>
    have hne : x :: xs.take 499 ≠ [] := by simp
    have hd : (match divisor (x :: xs.take 499) with
        | JsNum.fin q => q
        | JsNum.negInf => 0) =
        (if maxAbsQ (x :: xs.take 499) = 0 then 1
          else maxAbsQ (x :: xs.take 499)) := by
      rw [divisor_of_ne_nil _ hne]
    simp only [wavePath, specCmds, specPoints, List.take_succ_cons, hd]
    exact cons_path_eq x (xs.take 499) _ _

/-- The pixel points of the spec-side path are exactly `specPoints`. -/
theorem pathPoints_specCmds (data : List ℚ) :
    pathPoints (specCmds data) = specPoints data := by
  rw [specCmds]
  cases h : specPoints data with
  | nil => rfl
  | cons p ps =>
    simp only [pathPoints, List.map_cons, List.map_map]
    exact congrArg _ (List.map_id ps)

theorem specPoints_map_mul (data : List ℚ) (c : ℚ) (hc : 0 < c) :
    specPoints (data.map (fun v => c * v)) = specPoints data := by
  simp only [specPoints]
  rw [← List.map_take, List.length_map]
  apply List.map_congr_left
  intro i _
  rw [getD_map_mul, maxAbsQ_map_mul (data.take 500) c hc.le]
  by_cases hm : maxAbsQ (data.take 500) = 0
  · have hv : (data.take 500).getD i 0 = 0 := by
      rcases Nat.lt_or_ge i (data.take 500).length with hlt | hge
      · rw [List.getD_eq_getElem _ 0 hlt]
        exact eq_zero_of_maxAbsQ_eq_zero _ hm _ (List.getElem_mem hlt)
      · exact List.getD_eq_default _ 0 hge
    rw [hm, hv]
    simp
  · have hm' : c * maxAbsQ (data.take 500) ≠ 0 := mul_ne_zero (ne_of_gt hc) hm
    rw [if_neg hm', if_neg hm]
    have h1 : c * (data.take 500).getD i 0 *
          ((300 / 2) * (4 / 5) / (c * maxAbsQ (data.take 500))) =
        (data.take 500).getD i 0 *
          ((300 / 2) * (4 / 5) / maxAbsQ (data.take 500)) := by
      field_simp
      ring
    rw [h1]

/-- C5: the renderer consumes exactly the first 500 samples of `data`,
emits no path command on empty input, places the point for index `i` and
value `v` at `x = i * (W / count)`, `y = H/2 - v * scale`, joined as a
polyline in index order (`moveTo` the first point, `lineTo` each later
one), and draws the reference line horizontally at `y = H/2` across the
full width regardless of the data. -/
theorem waveform_render_geometry (data : List ℚ) :
    wavePath data = specCmds data ∧
    pathPoints (wavePath data) = specPoints data ∧
    wavePath data = wavePath (data.take 500) ∧
    (data = [] → wavePath data = []) ∧
    centerLine = [Cmd.moveTo 0 (300 / 2), Cmd.lineTo 800 (300 / 2)] := by
  refine ⟨wavePath_eq_specCmds data, ?_, ?_, ?_, rfl⟩
  · rw [wavePath_eq_specCmds data, pathPoints_specCmds]
  · have htake : (data.take 500).take 500 = data.take 500 := by
      rw [List.take_take, Nat.min_self]
    simp only [wavePath, htake]
  · intro h
    subst h
    rfl

/-- C5 witness: the geometry theorem applied to the empty sample list,
discharging its emptiness hypothesis. -/
theorem waveform_render_geometry_witness :
    wavePath ([] : List ℚ) = [] :=
  (waveform_render_geometry []).2.2.2.1 rfl

/-- C6: multiplying every sample by a positive constant leaves the drawn
path — commands and pixel points alike — unchanged. -/
theorem waveform_scale_invariance (data : List ℚ) (c : ℚ) (hc : 0 < c) :
    wavePath (data.map (fun v => c * v)) = wavePath data ∧
    pathPoints (wavePath (data.map (fun v => c * v))) =
      pathPoints (wavePath data) := by
  have h : wavePath (data.map (fun v => c * v)) = wavePath data := by
    rw [wavePath_eq_specCmds, wavePath_eq_specCmds data]
    unfold specCmds
    rw [specPoints_map_mul data c hc]
  exact ⟨h, by rw [h]⟩

/-- C6 witness: scale invariance at the concrete sample list
`[0, 1, -1, 0]` and factor 2. -/
theorem waveform_scale_invariance_witness :
    (0 : ℚ) < 2 ∧
    wavePath (([0, 1, -1, 0] : List ℚ).map (fun v => 2 * v)) =
      wavePath [0, 1, -1, 0] :=
  ⟨by norm_num, (waveform_scale_invariance [0, 1, -1, 0] 2 (by norm_num)).1⟩

/-- C4 counterexample: on the empty sample set the divisor is
`Math.max()` = `-Infinity` — which is truthy, so `|| 1` does not replace
it — and not 1 as claimed. -/
theorem empty_divisor_counterexample :
    divisor ([] : List ℚ) = JsNum.negInf ∧
      divisor ([] : List ℚ) ≠ JsNum.fin 1 :=
  ⟨rfl, by decide⟩

/-- C4 (amended): for a nonempty sample set the divisor is `maxAmplitude`
when that maximum is nonzero and 1 when it is zero; for the empty sample
set the divisor is `-Infinity` rather than 1, but no path is emitted, so
the render still degrades safely; on a nonempty all-zero input rendering
succeeds with no division by zero and every path point lies at
`y = H/2`. -/
theorem render_scale_divisor (l data : List ℚ) :
    (l ≠ [] → maxAmplitude l ≠ JsNum.fin 0 → divisor l = maxAmplitude l) ∧
    (l ≠ [] → maxAmplitude l = JsNum.fin 0 → divisor l = JsNum.fin 1) ∧
    divisor ([] : List ℚ) = JsNum.negInf ∧
    wavePath [] = [] ∧
    (data ≠ [] → (∀ v ∈ data, v = 0) →
      pathPoints (wavePath data) ≠ [] ∧
      ∀ p ∈ pathPoints (wavePath data), p.2 = 300 / 2) := by
  refine ⟨?_, ?_, rfl, rfl, ?_⟩
  · intro h1 h2
    rw [maxAmplitude_of_ne_nil l h1] at h2 ⊢
    have hm : maxAbsQ l ≠ 0 := fun hh => h2 (by rw [hh])
    rw [divisor_of_ne_nil l h1, if_neg hm]
  · intro h1 h2
    rw [maxAmplitude_of_ne_nil l h1] at h2
    have hm : maxAbsQ l = 0 := by injection h2
    rw [divisor_of_ne_nil l h1, if_pos hm]
  · intro hne hz
    rw [wavePath_eq_specCmds data, pathPoints_specCmds]
    constructor
    · cases data with
      | nil => exact absurd rfl hne
      | cons x xs => simp [specPoints]
    · intro p hp
      simp only [specPoints, List.mem_map, List.mem_range] at hp
      obtain ⟨i, hi, hpe⟩ := hp
      have hv : (data.take 500).getD i 0 = 0 := by
        rw [List.getD_eq_getElem _ 0 hi]
        exact hz _ (List.take_subset 500 data (List.getElem_mem hi))
      rw [hv, zero_mul, sub_zero] at hpe
      rw [← hpe]

/-- C4 witness: the amended divisor behaviour applied at the concrete
nonzero sample set `[0, 1]` and the all-zero sample set `[0, 0]`. -/
theorem render_scale_divisor_witness :
    ([0, 1] : List ℚ) ≠ [] ∧
    maxAmplitude ([0, 1] : List ℚ) ≠ JsNum.fin 0 ∧
    divisor ([0, 1] : List ℚ) = maxAmplitude ([0, 1] : List ℚ) ∧
    ([0, 0] : List ℚ) ≠ [] ∧
    (pathPoints (wavePath ([0, 0] : List ℚ)) ≠ [] ∧
      ∀ p ∈ pathPoints (wavePath ([0, 0] : List ℚ)), p.2 = 300 / 2) :=
  ⟨by decide, by decide,
    (render_scale_divisor [0, 1] [0, 0]).1 (by decide) (by decide),
    by decide,
    (render_scale_divisor [0, 1] [0, 0]).2.2.2.2 (by decide) (by decide)⟩

/-! ## Detection-card scenario (§8, concrete scenario 2) -/

/-- Model A of concrete scenario 2: detected with confidence 0.92 and one
P pick at probability 0.8. -/
def modelA : ModelResult :=
  { detected := true
    confidence := 92 / 100
    picks := [{ phase := "P", probability := 8 / 10 }] }

/-- Model B of concrete scenario 2: not detected, confidence 0.3, no
picks. -/
def modelB : ModelResult :=
  { detected := false
    confidence := 3 / 10
    picks := [] }

/-- The comparison object of concrete scenario 2. -/
def comparison2 : Comparison :=
  { agreement := false, confidence_diff := some (62 / 100) }

/-- The DetectionEvent of concrete scenario 2. -/
def event2 : DetectionEvent :=
  { event_id := "evt-2"
    timestamp := 0
    models := [("modelA", modelA), ("modelB", modelB)]
    comparison := some comparison2 }

/-- C7: the card's agreement/disagreement classification is
`comparison.agreement` read verbatim — it is untouched by any change to
the per-model results — and the confidence-delta line renders exactly when
`comparison.confidence_diff` is present; on concrete scenario 2 the card
is classified as disagreement, shows confidences "92.0%" and "30.0%", and
exactly one pick badge "P: 80%". -/
theorem detection_card_aggregation :
    (∀ (d : DetectionEvent) (c : Comparison), d.comparison = some c →
      (renderCard d).classification = c.agreement) ∧
    (∀ (d : DetectionEvent) (ms : List (String × ModelResult)),
      (renderCard { d with models := ms }).classification =
        (renderCard d).classification) ∧
    (∀ d : DetectionEvent, ((renderCard d).confidenceDiffLine).isSome =
      (d.comparison.bind Comparison.confidence_diff).isSome) ∧
    (renderCard event2).classification = false ∧
    (renderCard event2).modelBlocks.map ModelBlock.confidenceText =
      ["92.0%", "30.0%"] ∧
    ((renderCard event2).modelBlocks.map ModelBlock.pickBadges).flatten =
      ["P: 80%"] := by
  have hfA : (⌊(92 : ℚ) / 100 * 100 * 10 + 1 / 2⌋ : ℤ) = 920 := by norm_num
  have hfB : (⌊(3 : ℚ) / 10 * 100 * 10 + 1 / 2⌋ : ℤ) = 300 := by norm_num
  have hfP : (⌊(8 : ℚ) / 10 * 100 + 1 / 2⌋ : ℤ) = 80 := by norm_num
  refine ⟨?_, ?_, ?_, rfl, ?_, ?_⟩
  · intro d c hc
    simp [renderCard, classifyAgreement, hc]
  · intro d ms
    rfl
  · intro d
    cases hc : d.comparison with
    | none => simp [renderCard, hc]
    | some c =>
      cases hd : c.confidence_diff with
      | none => simp [renderCard, hc, hd]
      | some q => simp [renderCard, hc, hd]
  · simp only [renderCard, event2, modelA, modelB, List.map_cons,
      List.map_nil, toFixed1, hfA, hfB]
    rfl
  · simp only [renderCard, event2, modelA, modelB, List.map_cons,
      List.map_nil, toFixed0, hfP]
    rfl

/-- C7 witness: the classification equation applied to the concrete
scenario-2 event, whose comparison object is present. -/
theorem detection_card_aggregation_witness :
    event2.comparison = some comparison2 ∧
    (renderCard event2).classification = comparison2.agreement :=
  ⟨rfl, detection_card_aggregation.1 event2 comparison2 rfl⟩

/-- C9: an event with no `comparison` object at all still renders: the
card is classified as disagreement, the badge reads "✗ Disagreement", and
no confidence-delta line is shown. -/
theorem missing_comparison_renders (d : DetectionEvent)
    (h : d.comparison = none) :
    (renderCard d).classification = false ∧
    (renderCard d).badge = "✗ Disagreement" ∧
    (renderCard d).confidenceDiffLine = none := by
  refine ⟨?_, ?_, ?_⟩ <;> simp [renderCard, classifyAgreement, h]

/-- C9 witness: the missing-comparison behaviour at a concrete event
carrying model results but no comparison object. -/
theorem missing_comparison_renders_witness :
    ({ event2 with comparison := none } : DetectionEvent).comparison = none ∧
    (renderCard { event2 with comparison := none }).classification = false ∧
    (renderCard { event2 with comparison := none }).badge =
      "✗ Disagreement" ∧
    (renderCard { event2 with comparison := none }).confidenceDiffLine =
      none :=
  ⟨rfl,
    (missing_comparison_renders { event2 with comparison := none } rfl).1,
    (missing_comparison_renders { event2 with comparison := none } rfl).2.1,
    (missing_comparison_renders { event2 with comparison := none } rfl).2.2⟩

/-! ## Hourly-aggregate lemmas and scenario (§8, concrete scenario 3) -/

theorem sum_ite_detected (g : List DetectionRecord) :
    (g.map (fun r => if r.detected then (1 : ℕ) else 0)).sum =
      g.countP (fun r => r.detected) := by
  induction g with
  | nil => rfl
  | cons r rs ih =>
    cases hr : r.detected <;>
      simp [List.countP_cons, hr, ih, Nat.add_comm]

theorem countP_detected_filter (rows : List DetectionRecord)
    (p : DetectionRecord → Bool) :
    (rows.filter p).countP (fun r => r.detected) =
      rows.countP (fun r => p r && r.detected) := by
  induction rows with
  | nil => rfl
  | cons r rs ih =>
    cases hp : p r <;>
      cases hr : r.detected <;>
        simp [List.countP_cons, List.filter_cons, hp, hr, ih]

/-- The three records of concrete scenario 3: one hour bucket, one model,
`detected = true, true, false`. -/
def rows3 : List DetectionRecord :=
  [{ event_id := "e1", model_name := "modelA", detected := true,
     confidence := 9 / 10, processing_time_ms := 10, created_at := 1000 },
   { event_id := "e2", model_name := "modelA", detected := true,
     confidence := 8 / 10, processing_time_ms := 20, created_at := 2000 },
   { event_id := "e3", model_name := "modelA", detected := false,
     confidence := 4 / 10, processing_time_ms := 30, created_at := 3000 }]

/-- The `detection_stats_hourly` row expected for scenario 3. -/
def stats3 : HourlyStats :=
  { total_detections := 3
    positive_detections := 2
    avg_confidence := 7 / 10
    avg_processing_time := 20 }

/-- C8: the hourly aggregate groups records by 1-hour bucket and model
name; for every non-empty group, `total_detections` counts the group's
rows, `positive_detections` counts its rows with `detected = true`, and
the averages times the row count give back the group sums; scenario 3
(three rows, one bucket and model, `detected = true, true, false`) yields
`total_detections = 3`, `positive_detections = 2`. -/
theorem hourly_stats_aggregate :
    (∀ (rows : List DetectionRecord) (b : ℤ) (m : String)
        (r : DetectionRecord),
      r ∈ groupRows rows b m ↔
        r ∈ rows ∧ hourBucket r.created_at = b ∧ r.model_name = m) ∧
    (∀ (rows : List DetectionRecord) (b : ℤ) (m : String) (s : HourlyStats),
      statsHourly rows b m = some s →
        s.total_detections = rows.countP
          (fun r => hourBucket r.created_at == b && r.model_name == m) ∧
        s.positive_detections = rows.countP
          (fun r => (hourBucket r.created_at == b && r.model_name == m) &&
            r.detected) ∧
        s.avg_confidence * (s.total_detections : ℚ) =
          ((groupRows rows b m).map (fun r => r.confidence)).sum ∧
        s.avg_processing_time * (s.total_detections : ℚ) =
          ((groupRows rows b m).map (fun r => r.processing_time_ms)).sum) ∧
    statsHourly rows3 (hourBucket 1000) "modelA" = some stats3 := by
  refine ⟨?_, ?_, ?_⟩
  · intro rows b m r
    simp [groupRows, List.mem_filter]
  · intro rows b m s hs
    by_cases h : (groupRows rows b m).length = 0
    · simp [statsHourly, h] at hs
    · simp only [statsHourly, h, if_false] at hs
      have hlen : ((groupRows rows b m).length : ℚ) ≠ 0 := by
        exact_mod_cast h
      obtain rfl := Option.some.inj hs
      refine ⟨?_, ?_, ?_, ?_⟩
      · exact (List.countP_eq_length_filter _ _).symm
      · exact (sum_ite_detected _).trans (countP_detected_filter rows _)
      · exact div_mul_cancel₀ _ hlen
      · exact div_mul_cancel₀ _ hlen
  · have hg : groupRows rows3 (hourBucket 1000) "modelA" = rows3 := rfl
    simp only [statsHourly, hg]
    norm_num [rows3, stats3]

/-- C8 witness: the per-group characterisation applied to the concrete
scenario-3 rows, with its `some`-hypothesis discharged by the scenario
equation itself. -/
theorem hourly_stats_aggregate_witness :
    statsHourly rows3 (hourBucket 1000) "modelA" = some stats3 ∧
    stats3.total_detections = rows3.countP
      (fun r => hourBucket r.created_at == hourBucket 1000 &&
        r.model_name == "modelA") :=
  ⟨hourly_stats_aggregate.2.2,
    (hourly_stats_aggregate.2.1 rows3 (hourBucket 1000) "modelA" stats3
      hourly_stats_aggregate.2.2).1⟩
